import Mathlib

/-!
Shallow embedding of the scalar animation engine and the appearance
interpolation protocol of this repository (src/style/src/animation.rs,
src/style/src/checkbox.rs, src/widget/src/checkbox.rs), together with
theorems settling the specification claims about them.

The Rust code computes over `f32`; the embedding computes over `ℝ`.
The one place where IEEE-754 structure is observable in the claims is the
sign test `is_sign_positive`/`is_sign_negative` applied to the per-tick
`position_delta`, where `f32` keeps a sign on a zero product.  The sign
bit of a product/quotient of floats is the XOR of the operands' sign
bits, so the embedding carries that bit alongside the real value of the
delta (`signXor` below), rather than reading the sign off the real
number, which would lose the negative-zero case.
-/

open scoped Classical

namespace Iced

/-- Easing curves, from `enum Timing` in src/style/src/animation.rs.
`Custom` is the placeholder variant covered by the catch-all arm. -/
inductive Timing where
  | Linear
  | EaseIn
  | EaseOut
  | EaseInOut
  | EaseInQuint
  | EaseOutQuint
  | EaseInOutQuint
  | Custom
deriving DecidableEq

/-- `Timing::timing` from src/style/src/animation.rs: maps linear progress
to eased progress.  The catch-all arm of the Rust `match` (reached by
`Custom`) returns the input unchanged. -/
noncomputable def Timing.timing : Timing → ℝ → ℝ
  | .Linear, x => x
  | .EaseIn, x => 1 - Real.cos ((x * Real.pi) / 2)
  | .EaseOut, x => Real.sin ((x * Real.pi) / 2)
  | .EaseInOut, x => -(Real.cos (Real.pi * x) - 1) / 2
  | .EaseInQuint, x => x * x * x * x * x
  | .EaseOutQuint, x => 1 - (1 - x) ^ (5 : ℕ)
  | .EaseInOutQuint, x =>
      if x < 0.5 then 16 * x * x * x * x * x
      else 1 - (-2 * x + 2) ^ (5 : ℕ) / 2
  | .Custom, x => x

/-- `struct AnimationState<Time>` from src/style/src/animation.rs, with
`Time` instantiated to `ℝ` (the tests instantiate it to `f32`, whose
`elapsed_since` is plain subtraction). -/
structure AnimationState where
  origin : ℝ
  destination : ℝ
  started_time : ℝ
  last_tick_time : ℝ
  speed_at_interrupt : Option ℝ

/-- `struct AnimatedValue<Time>` from src/style/src/animation.rs. -/
structure AnimatedValue where
  position : ℝ
  duration_ms : ℝ
  timing : Timing
  animation_state : Option AnimationState

/-- `AnimatedValue::new`. -/
def AnimatedValue.new (position : ℝ) : AnimatedValue :=
  { position := position
    duration_ms := 0
    timing := .Linear
    animation_state := none }

/-- `AnimatedValue::timed_progress`: the eased value used for display.
The Rust `match` has a guarded arm
`Some(animation) if animation.destination != animation.origin`, rendered
here as a `match` plus `if`. -/
noncomputable def AnimatedValue.timed_progress (av : AnimatedValue) : ℝ :=
  match av.animation_state with
  | some animation =>
      if animation.destination ≠ animation.origin then
        let current := av.position - animation.origin
        let range := animation.destination - animation.origin
        let completion := current / range
        animation.origin + av.timing.timing completion * range
      else
        av.position
  | none => av.position

/-- `AnimatedValue::transition`: establish or retarget a transition.  In
the in-flight branch the Rust code first captures the interrupt speed if
absent, then re-anchors `origin` (and `position`) to the pre-call
`timed_progress()` and overwrites `destination`; `started_time` and
`last_tick_time` are untouched.  From rest it records a fresh state. -/
noncomputable def AnimatedValue.transition
    (av : AnimatedValue) (destination : ℝ) (time : ℝ) : AnimatedValue :=
  let tp := av.timed_progress
  match av.animation_state with
  | some animation =>
      let speed : Option ℝ :=
        match animation.speed_at_interrupt with
        | none =>
            some |(animation.destination - animation.origin) / av.duration_ms|
        | some s => some s
      { av with
          position := tp
          animation_state := some
            { animation with
                origin := tp
                destination := destination
                speed_at_interrupt := speed } }
  | none =>
      { av with
          animation_state := some
            { origin := av.position
              destination := destination
              started_time := time
              last_tick_time := time
              speed_at_interrupt := none } }

/-- Sign-bit XOR: the IEEE-754 sign bit of a product or quotient is the
XOR of the operands' sign bits.  Each `Prop` argument is the sign bit of
one operand (`true` = negative).  This models `is_sign_negative` on the
`f32` value of `position_delta`, which is observable even when the delta
is numerically zero (negative zero). -/
def signXor (p q : Prop) : Prop := (p ∧ ¬ q) ∨ (¬ p ∧ q)

/-- `AnimatedValue::tick`: advance the animation to `time`, returning the
updated value and the redraw flag.  `position_delta` is carried as a pair
of its real value and the sign bit its `f32` computation would have
(`signXor` of the factors' sign bits); the completion test
`position_delta.is_sign_positive() && position >= destination ||
position_delta.is_sign_negative() && position <= destination` reads that
bit. -/
noncomputable def AnimatedValue.tick
    (av : AnimatedValue) (time : ℝ) : AnimatedValue × Bool :=
  match av.animation_state with
  | some animation =>
      let elapsed := time - animation.last_tick_time
      let pd : ℝ × Prop :=
        match animation.speed_at_interrupt with
        | some speed =>
            (elapsed *
              (if animation.origin > animation.destination then -speed
               else speed),
             signXor (elapsed < 0)
               (signXor (speed < 0)
                 (animation.origin > animation.destination)))
        | none =>
            (elapsed / av.duration_ms *
              (animation.destination - animation.origin),
             signXor (elapsed < 0)
               (signXor (av.duration_ms < 0)
                 (animation.destination - animation.origin < 0)))
      if av.duration_ms = 0 then
        ({ av with
            position := animation.destination
            animation_state := none }, true)
      else
        let position2 := av.position + pd.1
        let finished :=
          (¬ pd.2 ∧ animation.destination ≤ position2) ∨
            (pd.2 ∧ position2 ≤ animation.destination)
        if finished then
          ({ av with
              position := animation.destination
              animation_state := none }, true)
        else
          ({ av with
              position := position2
              animation_state := some
                { animation with last_tick_time := time } }, true)
  | none => (av, false)

/-- `AnimatedValue::animating`. -/
def AnimatedValue.animating (av : AnimatedValue) : Bool :=
  av.animation_state.isSome

/-- The per-tick `position_delta` of `AnimatedValue::tick`, factored out
for reasoning (identical to the value computed inside `tick`). -/
noncomputable def tickDelta
    (av : AnimatedValue) (s : AnimationState) (t : ℝ) : ℝ :=
  match s.speed_at_interrupt with
  | some speed =>
      (t - s.last_tick_time) *
        (if s.origin > s.destination then -speed else speed)
  | none =>
      (t - s.last_tick_time) / av.duration_ms *
        (s.destination - s.origin)

/-- The IEEE sign bit of the per-tick `position_delta`, factored out for
reasoning (identical to the bit computed inside `tick`). -/
def tickSgn (av : AnimatedValue) (s : AnimationState) (t : ℝ) : Prop :=
  match s.speed_at_interrupt with
  | some speed =>
      signXor (t - s.last_tick_time < 0)
        (signXor (speed < 0) (s.origin > s.destination))
  | none =>
      signXor (t - s.last_tick_time < 0)
        (signXor (av.duration_ms < 0) (s.destination - s.origin < 0))

/-- Invariant maintained by `transition` and `tick` while in flight: the
current position lies between what has been travelled and the
destination (on the destination side of neither bound), and any captured
interrupt speed is a magnitude (non-negative).  `transition` establishes
it (it sets `position = origin` and stores an absolute value) and `tick`
preserves it. -/
def TickBounds (av : AnimatedValue) : Prop :=
  ∀ s, av.animation_state = some s →
    (s.origin ≤ s.destination → av.position ≤ s.destination) ∧
    (s.destination ≤ s.origin → s.destination ≤ av.position) ∧
    ∀ v, s.speed_at_interrupt = some v → 0 ≤ v

/-- Color with red, green, blue, alpha components, from `iced_core`. -/
structure Color where
  r : ℝ
  g : ℝ
  b : ℝ
  a : ℝ

/-- Modelled from the spec: `iced_core::Color::mixed` is not under
`src/` (only its callers are).  Spec §4.3: color fields blend by linear
component-wise mixing. -/
def Color.mixed (c o : Color) (t : ℝ) : Color :=
  { r := c.r * (1 - t) + o.r * t
    g := c.g * (1 - t) + o.g * t
    b := c.b * (1 - t) + o.b * t
    a := c.a * (1 - t) + o.a * t }

/-- Modelled from the spec: `iced_core::Background` is not under `src/`.
It is a sum of a solid color and a non-color (gradient) variant; the
widget code matches the color–color pair and falls through otherwise. -/
inductive Background where
  | color (c : Color)
  | gradient (g : ℝ)

/-- Modelled from the spec: `iced_core::BorderRadius` is not under
`src/`; it wraps four corner radii. -/
structure BorderRadius where
  r0 : ℝ
  r1 : ℝ
  r2 : ℝ
  r3 : ℝ

/-- `trait Interpolable` from src/widget/src/checkbox.rs (the same trait
appears in src/style/src/animation.rs). -/
class Interpolable (α : Type) where
  interpolated : α → α → ℝ → α

/-- `impl Interpolable for Color`: delegates to `Color::mixed`. -/
instance instInterpolableColor : Interpolable Color :=
  ⟨Color.mixed⟩

/-- `impl Interpolable for f32`: linear interpolation. -/
instance instInterpolableReal : Interpolable ℝ :=
  ⟨fun a b t => a * (1 - t) + b * t⟩

/-- `impl Interpolable for Background` from src/widget/src/checkbox.rs:
color pairs are mixed, any other pairing yields `other`. -/
instance instInterpolableBackground : Interpolable Background :=
  ⟨fun a b t =>
    match a, b with
    | .color x, .color y => .color (x.mixed y t)
    | _, _ => b⟩

/-- `impl<T> Interpolable for Option<T>` (identical in
src/style/src/animation.rs and src/widget/src/checkbox.rs): when both
sides are present, interpolate; otherwise take `other`. -/
instance instInterpolableOption {T : Type} [Interpolable T] :
    Interpolable (Option T) :=
  ⟨fun a b t =>
    match a, b with
    | some x, some y => some (Interpolable.interpolated x y t)
    | _, _ => b⟩

/-- `impl Interpolable for BorderRadius` from src/widget/src/checkbox.rs:
returns `self` unchanged (no blend is implemented for the radii). -/
instance instInterpolableBorderRadius : Interpolable BorderRadius :=
  ⟨fun a _ _ => a⟩

/-- `struct Appearance` of the checkbox, from src/style/src/checkbox.rs. -/
structure Appearance where
  background : Background
  icon_color : Color
  border_radius : BorderRadius
  border_width : ℝ
  border_color : Color
  text_color : Option Color

/-- `impl Interpolable for Appearance` from src/widget/src/checkbox.rs:
field-wise interpolation.  (The impl in src/style/src/checkbox.rs is
extensionally identical: it writes `border_radius: self.border_radius`
directly, which agrees with the `BorderRadius` instance above.) -/
instance instInterpolableAppearance : Interpolable Appearance :=
  ⟨fun a b t =>
    { background := Interpolable.interpolated a.background b.background t
      icon_color := Interpolable.interpolated a.icon_color b.icon_color t
      border_radius :=
        Interpolable.interpolated a.border_radius b.border_radius t
      border_width :=
        Interpolable.interpolated a.border_width b.border_width t
      border_color :=
        Interpolable.interpolated a.border_color b.border_color t
      text_color := Interpolable.interpolated a.text_color b.text_color t }⟩

/-- Concrete in-flight value: halfway from 0 to 10, duration 1, linear. -/
def c1av : AnimatedValue :=
  ⟨5, 1, .Linear, some ⟨0, 10, 0, 0, none⟩⟩

/-- Concrete in-flight value for the interrupt-speed claim. -/
def c2av : AnimatedValue :=
  ⟨5, 1, .Linear, some ⟨0, 10, 0, 0, none⟩⟩

/-- State reached by retargeting `c2av` to 3: origin re-anchored to 5 and
interrupt speed 10 captured. -/
def c2s2 : AnimationState :=
  ⟨5, 3, 0, 0, some 10⟩

/-- Opaque black, used by the appearance examples. -/
def c3black : Color :=
  ⟨0, 0, 0, 1⟩

/-- Appearance with a solid background, radius 1 and no text color. -/
def c3a : Appearance :=
  ⟨Background.color c3black, c3black, ⟨1, 1, 1, 1⟩, 0, c3black, none⟩

/-- Appearance with a gradient background, radius 2 and a text color. -/
def c3b : Appearance :=
  ⟨Background.gradient 0, c3black, ⟨2, 2, 2, 2⟩, 0, c3black, some c3black⟩

/-- Appearance with a solid background and no text color. -/
def c3c : Appearance :=
  ⟨Background.color c3black, c3black, ⟨1, 1, 1, 1⟩, 0, c3black, none⟩

/-- Appearance differing from `c3c` in radius and border width. -/
def c3d : Appearance :=
  ⟨Background.color c3black, c3black, ⟨2, 2, 2, 2⟩, 3, c3black, none⟩

/-- Concrete in-flight value: halfway from 0 to 10, duration 1, linear,
no interrupt speed captured yet. -/
def c4av : AnimatedValue :=
  ⟨5, 1, .Linear, some ⟨0, 10, 0, 0, none⟩⟩

/-- Resting value with zero duration (the instant-animation setup of the
Rust test `test_instant_animation`). -/
def c5av : AnimatedValue :=
  ⟨0, 0, .Linear, none⟩

/-- Concrete in-flight value for the monotonicity claim. -/
def c6av : AnimatedValue :=
  ⟨0, 1, .Linear, some ⟨0, 10, 0, 0, none⟩⟩

/-- Resting value for the redraw-signal claim. -/
def c7av : AnimatedValue :=
  ⟨3, 1, .Linear, none⟩

/-- Resting value for the totality claim. -/
def c8av : AnimatedValue :=
  ⟨4, 1, .EaseIn, none⟩

/-- Resting value for the degenerate-transition claim. -/
def c10av : AnimatedValue :=
  ⟨4, 1, .Linear, none⟩

lemma timing_zero (t : Timing) : t.timing 0 = 0 := by
  cases t <;> simp [Timing.timing] <;> norm_num

lemma timing_one (t : Timing) : t.timing 1 = 1 := by
  cases t <;>
    simp [Timing.timing, Real.cos_pi_div_two, Real.sin_pi_div_two,
      Real.cos_pi] <;> norm_num

lemma Color.mixed_zero (c o : Color) : c.mixed o 0 = c := by
  simp [Color.mixed]

lemma Color.mixed_one (c o : Color) : c.mixed o 1 = o := by
  simp [Color.mixed]

/-- Retargeting never changes the eased display value: the new origin is
re-anchored to the pre-call `timed_progress()`, and every easing curve
maps `0` to `0`. -/
lemma timed_progress_transition (av : AnimatedValue) (d t : ℝ) :
    (av.transition d t).timed_progress = av.timed_progress := by
  cases h : av.animation_state with
  | none =>
      simp only [AnimatedValue.transition, h, AnimatedValue.timed_progress]
      split_ifs <;> simp [timing_zero]
  | some a =>
      simp only [AnimatedValue.transition, h, AnimatedValue.timed_progress]
      split_ifs <;> simp [timing_zero]

lemma signXor_iff_right {p q : Prop} (hp : ¬ p) : signXor p q ↔ q := by
  simp [signXor, hp]

/-- With a non-zero duration, `tick` reduces to a single completion test
on `position + tickDelta`, branched on the delta's sign bit `tickSgn`. -/
lemma tick_eq_of_not_zero (av : AnimatedValue) (t : ℝ)
    (s : AnimationState) (hs : av.animation_state = some s)
    (hd0 : av.duration_ms ≠ 0) :
    av.tick t =
      if (¬ tickSgn av s t ∧
            s.destination ≤ av.position + tickDelta av s t) ∨
          (tickSgn av s t ∧
            av.position + tickDelta av s t ≤ s.destination) then
        ({ av with
            position := s.destination
            animation_state := none }, true)
      else
        ({ av with
            position := av.position + tickDelta av s t
            animation_state := some
              { s with last_tick_time := t } }, true) := by
  cases hsp : s.speed_at_interrupt with
  | some v =>
      simp only [AnimatedValue.tick, hs, hsp, tickDelta, tickSgn,
        if_neg hd0]
  | none =>
      simp only [AnimatedValue.tick, hs, hsp, tickDelta, tickSgn,
        if_neg hd0]

/-- Under a forward clock, non-negative duration and a non-negative
captured speed, the delta's sign bit is set exactly when the flight is
decreasing. -/
lemma tickSgn_iff (av : AnimatedValue) (s : AnimationState) (t : ℝ)
    (he : 0 ≤ t - s.last_tick_time) (hd : 0 ≤ av.duration_ms)
    (hv : ∀ v, s.speed_at_interrupt = some v → 0 ≤ v) :
    tickSgn av s t ↔ s.destination < s.origin := by
  have hnlt : ¬ (t < s.last_tick_time) := not_lt.mpr (sub_nonneg.mp he)
  cases hsp : s.speed_at_interrupt with
  | some v =>
      have h0 : ¬ (v < 0) := not_lt.mpr (hv v hsp)
      simp only [tickSgn, hsp, gt_iff_lt, sub_neg]
      rw [signXor_iff_right hnlt, signXor_iff_right h0]
  | none =>
      simp only [tickSgn, hsp, sub_neg]
      rw [signXor_iff_right hnlt, signXor_iff_right (not_lt.mpr hd)]

/-- In an increasing (or degenerate) flight the per-tick delta is
non-negative. -/
lemma tickDelta_nonneg (av : AnimatedValue) (s : AnimationState) (t : ℝ)
    (he : 0 ≤ t - s.last_tick_time) (hd : 0 ≤ av.duration_ms)
    (hv : ∀ v, s.speed_at_interrupt = some v → 0 ≤ v)
    (hdir : s.origin ≤ s.destination) :
    0 ≤ tickDelta av s t := by
  cases hsp : s.speed_at_interrupt with
  | some v =>
      have h0 : 0 ≤ v := hv v hsp
      have hng : ¬ (s.origin > s.destination) := not_lt.mpr hdir
      simp only [tickDelta, hsp, if_neg hng]
      exact mul_nonneg he h0
  | none =>
      simp only [tickDelta, hsp]
      exact mul_nonneg (div_nonneg he hd) (sub_nonneg.mpr hdir)

/-- In a strictly decreasing flight the per-tick delta is
non-positive. -/
lemma tickDelta_nonpos (av : AnimatedValue) (s : AnimationState) (t : ℝ)
    (he : 0 ≤ t - s.last_tick_time) (hd : 0 ≤ av.duration_ms)
    (hv : ∀ v, s.speed_at_interrupt = some v → 0 ≤ v)
    (hdir : s.destination < s.origin) :
    tickDelta av s t ≤ 0 := by
  cases hsp : s.speed_at_interrupt with
  | some v =>
      have h0 : 0 ≤ v := hv v hsp
      have hg : s.origin > s.destination := hdir
      simp only [tickDelta, hsp, if_pos hg, mul_neg]
      exact neg_nonpos.mpr (mul_nonneg he h0)
  | none =>
      simp only [tickDelta, hsp]
      exact mul_nonpos_of_nonneg_of_nonpos (div_nonneg he hd)
        (sub_nonpos.mpr (le_of_lt hdir))

/-- C1: for every `AnimatedValue` in flight toward a destination different
from its origin, an interrupting `transition(new_target, now)` leaves
`timed_progress()` unchanged: the new origin and position are re-anchored
to the eased current value, so there is no visual jump. -/
theorem interrupt_keeps_timed_progress (av : AnimatedValue)
    (s : AnimationState) (newTarget t : ℝ)
    (_hs : av.animation_state = some s)
    (_hne : s.destination ≠ s.origin) :
    (av.transition newTarget t).timed_progress = av.timed_progress :=
  timed_progress_transition av newTarget t

/-- Witness for C1 at a concrete in-flight value. -/
theorem interrupt_keeps_timed_progress_witness :
    (c1av.transition 7 3).timed_progress = c1av.timed_progress :=
  interrupt_keeps_timed_progress c1av ⟨0, 10, 0, 0, none⟩ 7 3 rfl
    (show (10 : ℝ) ≠ 0 by norm_num)

/-- C4 counterexample: retargeting to the current destination is not a
no-op.  At position 5 of a linear 0→10 flight with no interrupt speed,
`transition(10, _)` re-anchors `origin` from 0 to 5 and captures
`speed_at_interrupt = Some 10`, so the observable state changes. -/
theorem transition_same_target_not_noop :
    (c4av.transition 10 0).animation_state = some ⟨5, 10, 0, 0, some 10⟩ ∧
    c4av.animation_state = some ⟨0, 10, 0, 0, none⟩ ∧
    (5 : ℝ) ≠ 0 ∧ (some (10 : ℝ) : Option ℝ) ≠ none := by
  refine ⟨?_, rfl, by norm_num, by simp⟩
  simp only [c4av, AnimatedValue.transition, AnimatedValue.timed_progress,
    Timing.timing]
  norm_num

/-- C4 amended: retargeting to the current destination preserves the
destination and the value of `timed_progress()`, but it is not a no-op on
the rest of the state (origin and position are re-anchored to the eased
current value and an interrupt speed is captured if absent). -/
theorem transition_same_target_amended (av : AnimatedValue)
    (s : AnimationState) (t : ℝ) (hs : av.animation_state = some s) :
    (av.transition s.destination t).timed_progress = av.timed_progress ∧
    ∀ s2, (av.transition s.destination t).animation_state = some s2 →
      s2.destination = s.destination := by
  refine ⟨timed_progress_transition av s.destination t, ?_⟩
  intro s2 h2
  simp only [AnimatedValue.transition, hs] at h2
  cases h2
  rfl

/-- Witness for the amended C4 at a concrete in-flight value. -/
theorem transition_same_target_amended_witness :
    (c4av.transition (10 : ℝ) 2).timed_progress = c4av.timed_progress :=
  (transition_same_target_amended c4av ⟨0, 10, 0, 0, none⟩ 2 rfl).1

/-- C7: `tick` returns `true` exactly when the value is animating at the
time of the call, and is a no-op returning `false` at rest. -/
theorem tick_redraw_iff_animating (av : AnimatedValue) (t : ℝ) :
    (av.tick t).2 = av.animating ∧
    (av.animating = false → av.tick t = (av, false)) := by
  cases h : av.animation_state with
  | none =>
      constructor
      · simp [AnimatedValue.tick, AnimatedValue.animating, h]
      · intro _
        simp [AnimatedValue.tick, h]
  | some a =>
      constructor
      · simp only [AnimatedValue.tick, AnimatedValue.animating, h]
        split_ifs <;> simp
      · intro hfalse
        simp [AnimatedValue.animating, h] at hfalse

/-- Witness for C7 at a concrete resting value. -/
theorem tick_redraw_iff_animating_witness :
    c7av.tick 5 = (c7av, false) :=
  (tick_redraw_iff_animating c7av 5).2 rfl

/-- C8: `timed_progress()` is total: at rest, or in flight with
`destination == origin`, it returns `position` unchanged; only in flight
with `destination != origin` does it divide by the range and apply the
easing curve. -/
theorem timed_progress_total (av : AnimatedValue) :
    (av.animation_state = none → av.timed_progress = av.position) ∧
    ∀ s, av.animation_state = some s →
      (s.destination = s.origin → av.timed_progress = av.position) ∧
      (s.destination ≠ s.origin →
        av.timed_progress =
          s.origin +
            av.timing.timing
                ((av.position - s.origin) / (s.destination - s.origin)) *
              (s.destination - s.origin)) := by
  constructor
  · intro h
    simp [AnimatedValue.timed_progress, h]
  · intro s hs
    constructor
    · intro he
      simp [AnimatedValue.timed_progress, hs, he]
    · intro hne
      simp [AnimatedValue.timed_progress, hs, hne]

/-- Witness for C8 at a concrete resting value. -/
theorem timed_progress_total_witness :
    c8av.timed_progress = c8av.position :=
  (timed_progress_total c8av).1 rfl

/-- C9: every standard easing curve maps 0 to exactly 0 and 1 to exactly
1, and the placeholder variant is the identity mapping. -/
theorem timing_endpoints :
    (∀ t : Timing, t.timing 0 = 0 ∧ t.timing 1 = 1) ∧
    ∀ x : ℝ, Timing.Custom.timing x = x :=
  ⟨fun t => ⟨timing_zero t, timing_one t⟩, fun _ => rfl⟩

/-- C5: with `duration_ms = 0`, the first `tick` after a `transition`
completes instantly: it returns `true`, snaps `position` to the target
and leaves the value at rest. -/
theorem zero_duration_tick_completes (av : AnimatedValue)
    (target t0 t : ℝ) (hd : av.duration_ms = 0) (_ht : t0 ≤ t) :
    ((av.transition target t0).tick t).2 = true ∧
    ((av.transition target t0).tick t).1.position = target ∧
    ((av.transition target t0).tick t).1.animating = false := by
  cases h : av.animation_state with
  | none =>
      simp [AnimatedValue.transition, AnimatedValue.tick,
        AnimatedValue.animating, h, hd]
  | some a =>
      simp [AnimatedValue.transition, AnimatedValue.tick,
        AnimatedValue.animating, h, hd]

/-- Witness for C5: the instant-animation scenario of the Rust test, with
zero elapsed time. -/
theorem zero_duration_tick_completes_witness :
    ((c5av.transition 10 0).tick 0).2 = true ∧
    ((c5av.transition 10 0).tick 0).1.position = 10 ∧
    ((c5av.transition 10 0).tick 0).1.animating = false :=
  zero_duration_tick_completes c5av 10 0 0 rfl le_rfl

/-- C10: from rest, `transition` to the current position still enters the
in-flight state with `destination = origin`, and the next `tick` at any
later time completes immediately, returning `true` and leaving the
position unchanged. -/
theorem transition_to_current_position (av : AnimatedValue) (t t2 : ℝ)
    (hrest : av.animation_state = none) (_ht : t ≤ t2) :
    (av.transition av.position t).animating = true ∧
    (∀ s, (av.transition av.position t).animation_state = some s →
      s.destination = s.origin) ∧
    ((av.transition av.position t).tick t2).2 = true ∧
    ((av.transition av.position t).tick t2).1.position = av.position ∧
    ((av.transition av.position t).tick t2).1.animating = false := by
  have htrans : av.transition av.position t =
      { av with
          animation_state := some
            ({ origin := av.position
               destination := av.position
               started_time := t
               last_tick_time := t
               speed_at_interrupt := none } : AnimationState) } := by
    simp [AnimatedValue.transition, hrest]
  rw [htrans]
  refine ⟨rfl, ?_, ?_⟩
  · intro s hs2
    cases hs2
    rfl
  · by_cases hd : av.duration_ms = 0
    · simp [AnimatedValue.tick, AnimatedValue.animating, hd]
    · have hfin :
        (¬ signXor (t2 - t < 0)
            (signXor (av.duration_ms < 0) (av.position - av.position < 0)) ∧
          av.position ≤
            av.position +
              (t2 - t) / av.duration_ms * (av.position - av.position)) ∨
        (signXor (t2 - t < 0)
            (signXor (av.duration_ms < 0) (av.position - av.position < 0)) ∧
          av.position +
              (t2 - t) / av.duration_ms * (av.position - av.position) ≤
            av.position) := by
        by_cases hsgn : signXor (t2 - t < 0)
            (signXor (av.duration_ms < 0) (av.position - av.position < 0))
        · right
          constructor
          · exact hsgn
          · simp
        · left
          constructor
          · exact hsgn
          · simp
      simp only [AnimatedValue.tick, hd, if_false]
      rw [if_pos hfin]
      simp [AnimatedValue.animating]

/-- Witness for C10 at a concrete resting value. -/
theorem transition_to_current_position_witness :
    ((c10av.transition c10av.position 0).tick 1).2 = true ∧
    ((c10av.transition c10av.position 0).tick 1).1.position =
      c10av.position ∧
    ((c10av.transition c10av.position 0).tick 1).1.animating = false := by
  have h := transition_to_current_position c10av 0 1 rfl (by norm_num)
  exact ⟨h.2.2.1, h.2.2.2.1, h.2.2.2.2⟩

/-- C2: the first transition call while in flight with no captured speed
stores `speed_at_interrupt = |old_destination - old_origin| /
duration_ms`; any later transition during the same flight leaves the
captured speed unchanged. -/
theorem first_interrupt_captures_speed (av : AnimatedValue)
    (s : AnimationState) (tgt t : ℝ) (hs : av.animation_state = some s)
    (hd : 0 ≤ av.duration_ms) :
    (s.speed_at_interrupt = none →
      ∀ s2, (av.transition tgt t).animation_state = some s2 →
        s2.speed_at_interrupt =
          some (|s.destination - s.origin| / av.duration_ms)) ∧
    ∀ v, s.speed_at_interrupt = some v →
      ∀ s2, (av.transition tgt t).animation_state = some s2 →
        s2.speed_at_interrupt = some v := by
  constructor
  · intro hnone s2 h2
    simp only [AnimatedValue.transition, hs, hnone] at h2
    cases h2
    simp only [abs_div, abs_of_nonneg hd]
  · intro v hv s2 h2
    simp only [AnimatedValue.transition, hs, hv] at h2
    cases h2
    rfl

/-- Witness for C2: retargeting the halfway 0→10 flight captures speed
10. -/
theorem first_interrupt_captures_speed_witness :
    c2s2.speed_at_interrupt = some (10 : ℝ) := by
  have h := (first_interrupt_captures_speed c2av ⟨0, 10, 0, 0, none⟩ 3 7
      rfl (by norm_num [c2av])).1 rfl c2s2 (by
        simp only [c2av, c2s2, AnimatedValue.transition,
          AnimatedValue.timed_progress, Timing.timing]
        norm_num)
  rw [h]
  norm_num [c2av]

/-- C6: while in flight under non-decreasing timestamps and a
non-negative duration, `position` moves monotonically toward
`destination` and never overshoots it (it is snapped to it exactly on the
completing tick); `transition` establishes the invariant and `tick`
preserves it, keeping origin and destination unchanged while the flight
continues. -/
theorem tick_monotone_toward_destination (av : AnimatedValue)
    (tgt t0 t : ℝ) (s : AnimationState) (hb : TickBounds av) :
    TickBounds (av.transition tgt t0) ∧
    (av.animation_state = some s → s.last_tick_time ≤ t →
      0 ≤ av.duration_ms →
      TickBounds (av.tick t).1 ∧
      (s.origin ≤ s.destination →
        av.position ≤ (av.tick t).1.position) ∧
      (s.destination ≤ s.origin →
        (av.tick t).1.position ≤ av.position) ∧
      ∀ s2, (av.tick t).1.animation_state = some s2 →
        s2.destination = s.destination ∧ s2.origin = s.origin) := by
  constructor
  · intro s2 hs2
    cases h : av.animation_state with
    | none =>
        simp only [AnimatedValue.transition, h] at hs2 ⊢
        cases hs2
        exact ⟨fun hle => hle, fun hle => hle, by simp⟩
    | some a =>
        cases hsp : a.speed_at_interrupt with
        | none =>
            simp only [AnimatedValue.transition, h, hsp] at hs2 ⊢
            cases hs2
            refine ⟨fun hle => hle, fun hle => hle, ?_⟩
            intro v hv
            cases hv
            exact abs_nonneg _
        | some w =>
            simp only [AnimatedValue.transition, h, hsp] at hs2 ⊢
            cases hs2
            refine ⟨fun hle => hle, fun hle => hle, ?_⟩
            intro v hv
            cases hv
            exact (hb a h).2.2 w hsp
  · intro hs hlt hd
    have he : 0 ≤ t - s.last_tick_time := sub_nonneg.mpr hlt
    obtain ⟨hb1, hb2, hb3⟩ := hb s hs
    by_cases hd0 : av.duration_ms = 0
    · have htick : av.tick t =
          ({ av with
              position := s.destination
              animation_state := none }, true) := by
        simp [AnimatedValue.tick, hs, hd0]
      rw [htick]
      refine ⟨?_, fun hdir => hb1 hdir, fun hdir => hb2 hdir, ?_⟩
      · intro s2 h2
        simp at h2
      · intro s2 h2
        simp at h2
    · rw [tick_eq_of_not_zero av t s hs hd0]
      have hsgn := tickSgn_iff av s t he hd hb3
      by_cases hfin : (¬ tickSgn av s t ∧
            s.destination ≤ av.position + tickDelta av s t) ∨
          (tickSgn av s t ∧
            av.position + tickDelta av s t ≤ s.destination)
      · rw [if_pos hfin]
        refine ⟨?_, fun hdir => hb1 hdir, fun hdir => hb2 hdir, ?_⟩
        · intro s2 h2
          simp at h2
        · intro s2 h2
          simp at h2
      · rw [if_neg hfin]
        by_cases hsg : tickSgn av s t
        · have hdlt : s.destination < s.origin := hsgn.mp hsg
          have hdle : tickDelta av s t ≤ 0 :=
            tickDelta_nonpos av s t he hd hb3 hdlt
          have hnotfin2 : ¬ (av.position + tickDelta av s t ≤
              s.destination) :=
            fun hcon => hfin (Or.inr ⟨hsg, hcon⟩)
          have hlt2 : s.destination < av.position + tickDelta av s t :=
            not_le.mp hnotfin2
          refine ⟨?_, ?_, ?_, ?_⟩
          · intro s2 h2
            cases h2
            refine ⟨?_, fun _ => le_of_lt hlt2, hb3⟩
            intro hcon
            exact absurd hcon (not_le.mpr hdlt)
          · intro hdir
            exact absurd hdir (not_le.mpr hdlt)
          · intro _
            show av.position + tickDelta av s t ≤ av.position
            linarith
          · intro s2 h2
            cases h2
            exact ⟨rfl, rfl⟩
        · have hole : s.origin ≤ s.destination :=
            not_lt.mp (fun h => hsg (hsgn.mpr h))
          have hdge : 0 ≤ tickDelta av s t :=
            tickDelta_nonneg av s t he hd hb3 hole
          have hnotfin2 : ¬ (s.destination ≤
              av.position + tickDelta av s t) :=
            fun hcon => hfin (Or.inl ⟨hsg, hcon⟩)
          have hlt2 : av.position + tickDelta av s t < s.destination :=
            not_le.mp hnotfin2
          refine ⟨?_, ?_, ?_, ?_⟩
          · intro s2 h2
            cases h2
            refine ⟨fun _ => le_of_lt hlt2, ?_, hb3⟩
            intro hcon
            have := hb2 hcon
            linarith
          · intro _
            show av.position ≤ av.position + tickDelta av s t
            linarith
          · intro hdir
            have := hb2 hdir
            show av.position + tickDelta av s t ≤ av.position
            linarith
          · intro s2 h2
            cases h2
            exact ⟨rfl, rfl⟩

/-- Witness for C6: one forward tick of a linear 0→10 flight. -/
theorem tick_monotone_toward_destination_witness :
    c6av.position ≤ (c6av.tick 1).1.position := by
  have hb : TickBounds c6av := by
    intro s hs
    cases hs
    refine ⟨?_, ?_, ?_⟩
    · intro _
      norm_num [c6av]
    · intro hcon
      norm_num at hcon
    · intro v hv
      cases hv
  exact ((tick_monotone_toward_destination c6av 0 0 1 ⟨0, 10, 0, 0, none⟩
    hb).2 rfl (by norm_num) (by norm_num [c6av])).2.1 (by norm_num)

/-- C3 counterexample: the blend end-points fail field-by-field.  With
`a = c3a` (solid background, radius 1, no text color) and `b = c3b`
(gradient background, radius 2, a text color): at ratio 1 the border
radius stays `a`'s instead of becoming `b`'s, and at ratio 0 the
background and the optional text color take `b`'s values instead of
`a`'s. -/
theorem blend_endpoints_counterexample :
    (Interpolable.interpolated c3a c3b (1 : ℝ)).border_radius ≠
      c3b.border_radius ∧
    (Interpolable.interpolated c3a c3b (0 : ℝ)).background ≠
      c3a.background ∧
    (Interpolable.interpolated c3a c3b (0 : ℝ)).text_color ≠
      c3a.text_color := by
  refine ⟨?_, ?_, ?_⟩
  · simp only [c3a, c3b, Interpolable.interpolated,
      instInterpolableAppearance, instInterpolableBorderRadius]
    intro h
    rw [BorderRadius.mk.injEq] at h
    norm_num at h
  · simp only [c3a, c3b, Interpolable.interpolated,
      instInterpolableAppearance, instInterpolableBackground]
    intro h
    cases h
  · simp only [c3a, c3b, Interpolable.interpolated,
      instInterpolableAppearance, instInterpolableOption]
    intro h
    cases h

/-- C3 amended: blending two appearances at ratio 0 returns `a` and at
ratio 1 returns `b`, field by field, except that the border radius is
never blended (both end-points keep `a`'s radius), provided the two
backgrounds are both solid colors and the optional text colors are both
present or both absent (otherwise those fields fall back to `b` at
ratio 0). -/
theorem blend_endpoints_amended (a b : Appearance) (ca cb : Color)
    (hba : a.background = Background.color ca)
    (hbb : b.background = Background.color cb)
    (htc : a.text_color.isSome = b.text_color.isSome) :
    Interpolable.interpolated a b (0 : ℝ) = a ∧
    Interpolable.interpolated a b (1 : ℝ) =
      { b with border_radius := a.border_radius } := by
  obtain ⟨abg, aic, abr, abw, abc, atc⟩ := a
  obtain ⟨bbg, bic, bbr, bbw, bbc, btc⟩ := b
  simp only at hba hbb htc
  subst hba hbb
  cases atc with
  | none =>
      cases btc with
      | none =>
          constructor <;>
            simp [Interpolable.interpolated, instInterpolableAppearance,
              instInterpolableBackground, instInterpolableColor,
              instInterpolableOption, instInterpolableBorderRadius,
              instInterpolableReal, Color.mixed_zero, Color.mixed_one]
      | some tb =>
          simp at htc
  | some ta =>
      cases btc with
      | none =>
          simp at htc
      | some tb =>
          constructor <;>
            simp [Interpolable.interpolated, instInterpolableAppearance,
              instInterpolableBackground, instInterpolableColor,
              instInterpolableOption, instInterpolableBorderRadius,
              instInterpolableReal, Color.mixed_zero, Color.mixed_one]

/-- Witness for the amended C3 at concrete appearances with solid
backgrounds and absent text colors. -/
theorem blend_endpoints_amended_witness :
    Interpolable.interpolated c3c c3d (0 : ℝ) = c3c ∧
    Interpolable.interpolated c3c c3d (1 : ℝ) =
      { c3d with border_radius := c3c.border_radius } :=
  blend_endpoints_amended c3c c3d c3black c3black rfl rfl rfl

end Iced
